import Mathlib

/-!
# Verification of the `house_buy` scraping pipeline (src/utils/utils.py)

Shallow embedding of the pure decision logic of the repository:

* Python `dict` semantics (insertion-ordered association lists with
  in-place update on key collision), used by the `imovirtual` result
  construction and by `remove_duplicates`;
* the `imovirtual` pagination loop (page range, per-span title/link
  accumulation, `zip` + dict-comprehension result);
* `remove_duplicates` (double dict inversion);
* `find_element_after_sequence` / the pure core of `get_page_number`;
* the per-string core of `intermediate_dataframe`'s price cleanup and
  city/state derivation.

HTTP transport and HTML parsing are external collaborators: a fetched
page is modelled by the data the extraction step reads from it (for the
listing page, the sequence of `span.offer-item-title` elements, each
carrying its stripped text and, optionally, the `href` of its nearest
enclosing `<a>` ancestor), and `requests.get` failures by `Except.error`.
-/

namespace HouseBuy

/-! ## Python `dict` as an insertion-ordered association list

A Python `dict` keeps keys in first-insertion order; assigning to an
existing key overwrites the value in place, a new key is appended at the
end.  `pyInsert` is one assignment `d[k] = v`; `pyOfPairs` builds a dict
from a sequence of (key, value) pairs, as a dict comprehension or
`dict(...)` does. -/

variable {α β : Type _}

/-- One Python dict assignment `d[k] = v`: overwrite in place if `k` is
already a key, otherwise append the new binding at the end. -/
def pyInsert [DecidableEq α] : List (α × β) → α → β → List (α × β)
  | [], k, v => [(k, v)]
  | (k', v') :: rest, k, v =>
    if k' = k then (k, v) :: rest else (k', v') :: pyInsert rest k v

/-- Build a Python dict from a sequence of (key, value) pairs, processed
left to right (the semantics of `{k: v for k, v in pairs}`). -/
def pyOfPairs [DecidableEq α] (ps : List (α × β)) : List (α × β) :=
  ps.foldl (fun d p => pyInsert d p.1 p.2) []

/-- Key lookup in the association-list model of a Python dict. -/
def lookupPy [DecidableEq α] : List (α × β) → α → Option β
  | [], _ => none
  | (k', v) :: rest, k => if k' = k then some v else lookupPy rest k

/-- The value paired with the LAST occurrence of key `k` in a raw pair
sequence — the value that "last writer wins" retains. -/
def lastValue [DecidableEq α] (ps : List (α × β)) (k : α) : Option β :=
  (ps.filterMap fun p => if p.1 = k then some p.2 else none).getLast?

/-- `remove_duplicates` (src/utils/utils.py:276-288): invert the
title→link dict to link→title (`temp`), then invert back to title→link
(`res`); each inversion is a dict comprehension, so each is
last-writer-wins on its keys. -/
def remove_duplicates (data : List (String × String)) : List (String × String) :=
  let temp := pyOfPairs (data.map fun p => (p.2, p.1))
  pyOfPairs (temp.map fun p => (p.2, p.1))

/-! ## The `imovirtual` pagination loop -/

/-- One `span.offer-item-title` element of a fetched listing page: its
stripped text content, paired with the `href` of its nearest enclosing
`<a>` ancestor when such an ancestor exists and has an `href` attribute
(`none` otherwise). -/
abbrev Span := String × Option String

/-- A site maps a page number to the outcome of fetching and parsing that
page: `Except.error ()` models a raised `requests.exceptions.RequestException`,
`Except.ok` the list of `span.offer-item-title` elements of the page. -/
abbrev Site := Nat → Except Unit (List Span)

/-- The inner `for span_tag in span_tags` loop of `imovirtual`
(src/utils/utils.py:260-264): the span's stripped text is always appended
to `title`, but a link is appended to `links` only when an enclosing
`<a>` with `href` exists. -/
def spanLoop : List Span → List String → List String → List String × List String
  | [], title, links => (title, links)
  | (t, href) :: rest, title, links =>
    spanLoop rest (title ++ [t])
      (match href with
       | some h => links ++ [h]
       | none => links)

/-- The `for num in range(start_page, end_page + 1)` loop of `imovirtual`
(src/utils/utils.py:250-270).  A `RequestException` is caught, logged,
and `pass`ed over, so the loop continues with the next page; likewise the
`if not span_tags` branch only logs (its `pass` is a no-op), so an empty
page does not end the loop either. -/
def pageLoop (site : Site) : List Nat → List String × List String → List String × List String
  | [], st => st
  | num :: rest, st =>
    match site num with
    | Except.error _ => pageLoop site rest st
    | Except.ok spans => pageLoop site rest (spanLoop spans st.1 st.2)

/-- Python `range(a, b)`: the integers from `a` (inclusive) to `b`
(exclusive), empty when `b ≤ a`. -/
def pyRange (a b : Nat) : List Nat := List.range' a (b - a)

/-- `imovirtual` (src/utils/utils.py:233-273): run the page loop over
`range(start_page, end_page + 1)` starting from empty `title`/`links`
accumulators, then build the returned dict with
`{title: link for title, link in zip(title, links)}`. -/
def imovirtual (site : Site) (start_page end_page : Nat) : List (String × String) :=
  let st := pageLoop site (pyRange start_page (end_page + 1)) ([], [])
  pyOfPairs (st.1.zip st.2)

/-! ## `find_element_after_sequence` and `get_page_number` -/

instance exceptDecEq {ε γ : Type _} [DecidableEq ε] [DecidableEq γ] :
    DecidableEq (Except ε γ) := fun x y =>
  match x, y with
  | Except.error a, Except.error b =>
    if h : a = b then isTrue (by rw [h])
    else isFalse (fun hc => h (by injection hc))
  | Except.ok a, Except.ok b =>
    if h : a = b then isTrue (by rw [h])
    else isFalse (fun hc => h (by injection hc))
  | Except.error _, Except.ok _ => isFalse (fun hc => Except.noConfusion hc)
  | Except.ok _, Except.error _ => isFalse (fun hc => Except.noConfusion hc)

/-- Strip leading and trailing whitespace from a character list — the
behaviour of Python `str.strip()` and pandas `.str.strip()`. -/
def stripChars (s : List Char) : List Char :=
  ((s.dropWhile Char.isWhitespace).reverse.dropWhile Char.isWhitespace).reverse

/-- Python `str.strip()` on a string. -/
def pyStrip (s : String) : String := String.mk (stripChars s.data)

/-- Run of decimal digits to a number: `some` exactly when the character
list is a nonempty all-digit run. -/
def digitsToNat (ds : List Char) : Option Nat :=
  if ds = [] then none
  else if ds.all Char.isDigit then
    some (ds.foldl (fun n c => 10 * n + (c.toNat - Char.toNat (Char.ofNat 48))) 0)
  else none

/-- Model of Python's built-in `int(s)` on a decimal string literal:
strip surrounding whitespace, allow one optional sign, then require a
nonempty run of decimal digits; anything else raises `ValueError`,
modelled as `none`. -/
def pyInt (s : String) : Option Int :=
  match stripChars s.data with
  | '-' :: ds => (digitsToNat ds).map (fun n => -(n : Int))
  | '+' :: ds => (digitsToNat ds).map (fun n => (n : Int))
  | ds => (digitsToNat ds).map (fun n => (n : Int))

/-- The `for i in range(len(values) - len(seq))` loop of
`find_element_after_sequence` (src/utils/utils.py:193-198), positioned at
index `i` with `k` iterations left.  A failing `int()` call propagates as
`Except.error ()` (the uncaught `ValueError`); falling off the loop
returns `None`. -/
def feasGo (values seq : List String) : Nat → Nat → Except Unit (Option Int)
  | _, 0 => Except.ok none
  | i, k + 1 =>
    if (values.drop i).take seq.length = seq then
      if i + seq.length < values.length then
        match pyInt (values.getD (i + seq.length) "") with
        | some n => Except.ok (some n)
        | none => Except.error ()
      else feasGo values seq (i + 1) k
    else feasGo values seq (i + 1) k

/-- `find_element_after_sequence` (src/utils/utils.py:181-199): scan
`i ∈ range(len(values) - len(seq))` for a slice of `values` equal to
`seq` and return `int` of the element following the first such slice;
`None` when no slice inside that range matches.  `Except.ok` wraps the
function's normal returns, `Except.error ()` the uncaught `ValueError`. -/
def find_element_after_sequence (values seq : List String) : Except Unit (Option Int) :=
  feasGo values seq 0 (values.length - seq.length)

/-- The pure tail of `get_page_number` (src/utils/utils.py:202-230):
given the stripped texts of the matched `li` tags, the returned
`max_pages` is `find_element_after_sequence(values, ["1", "2", "3"])`. -/
def get_page_number_core (values : List String) : Except Unit (Option Int) :=
  find_element_after_sequence values ["1", "2", "3"]

/-! ## `intermediate_dataframe`: price cleanup and city/state derivation -/

/-- Delete every leftmost-first, non-overlapping occurrence of the
nonempty pattern `pat` from a character list; the fuel argument (the
scan length) only makes the recursion structural. -/
def removeSubGo (pat : List Char) : Nat → List Char → List Char
  | 0, s => s
  | _ + 1, [] => []
  | fuel + 1, c :: rest =>
    if pat.isPrefixOf (c :: rest) then removeSubGo pat fuel ((c :: rest).drop pat.length)
    else c :: removeSubGo pat fuel rest

/-- Python `str.replace(pat, "")` for a nonempty pattern without regex
metacharacters — the only shape `intermediate_dataframe` uses. -/
def pyReplaceEmpty (s pat : String) : String :=
  String.mk (removeSubGo pat.data s.data.length s.data)

/-- Per-string core of `df["prices"].str.replace(" €", "", regex=True)`
(src/utils/utils.py:402); the pattern contains no regex metacharacter, so
it is a literal replace-all. -/
def clean_prices (s : String) : String := pyReplaceEmpty s " €"

/-- Per-string core of `df["prices_m2"].str.replace(" €/m²", "", regex=True)`
(src/utils/utils.py:401); again a literal replace-all. -/
def clean_prices_m2 (s : String) : String := pyReplaceEmpty s " €/m²"

/-- Split a character list at every occurrence of the separator,
keeping empty fields; `cur` is the reversed current field. -/
def splitChars (sep : Char) : List Char → List Char → List (List Char)
  | [], cur => [cur.reverse]
  | c :: rest, cur =>
    if c = sep then cur.reverse :: splitChars sep rest []
    else splitChars sep rest (c :: cur)

/-- Python `str.split(sep)` for a one-character separator: the fields
between separators, in order; a string without the separator yields the
one-element list holding the whole string. -/
def pySplit (s : String) (sep : Char) : List String :=
  (splitChars sep s.data []).map String.mk

/-- pandas `.str[i]` applied to a column of string lists: Python-style
indexing where a negative `i` counts from the end and an out-of-range
index yields `NaN` (modelled `none`), never an error. -/
def strGet (parts : List String) (i : Int) : Option String :=
  if 0 ≤ i then parts[i.toNat]?
  else if (-i).toNat ≤ parts.length then parts[parts.length - (-i).toNat]?
  else none

/-- `df["city"] = df["full_address"].str.split(",").str[-2].str.strip()`
(src/utils/utils.py:405), one address at a time; `.str.strip()` keeps
`NaN` as `NaN`, hence the `Option.map`. -/
def derive_city (full_address : String) : Option String :=
  (strGet (pySplit full_address ',') (-2)).map pyStrip

/-- `df["state"] = df["full_address"].str.split(",").str[-1].str.strip()`
(src/utils/utils.py:406); the spec calls this column `region`. -/
def derive_state (full_address : String) : Option String :=
  (strGet (pySplit full_address ',') (-1)).map pyStrip

/-! ## Concrete test sites -/

/-- Test site: page 1 carries a title without an enclosing link followed
by a title with one. -/
def siteShift : Site := fun n =>
  if n = 1 then Except.ok [("T1", none), ("T2", some "L2")] else Except.ok []

/-- Test site: pages 1 and 2 have one stub each, page 3 is empty, page 4
has a fresh stub. -/
def siteEmptyPage : Site := fun n =>
  if n = 1 then Except.ok [("t1", some "l1")]
  else if n = 2 then Except.ok [("t2", some "l2")]
  else if n = 3 then Except.ok []
  else if n = 4 then Except.ok [("t4", some "l4")]
  else Except.ok []

/-- Test site: page 2's fetch raises a `RequestException`, pages 1 and 3
have one stub each. -/
def siteFetchFail : Site := fun n =>
  if n = 1 then Except.ok [("t1", some "l1")]
  else if n = 2 then Except.error ()
  else if n = 3 then Except.ok [("t3", some "l3")]
  else Except.ok []

/-- Test site: page 4's link set is a non-empty subset of page 3's
(a repeated last page), and page 5 has a fresh stub. -/
def siteRepeat : Site := fun n =>
  if n = 1 then Except.ok [("t1", some "l1")]
  else if n = 2 then Except.ok [("t2", some "l2")]
  else if n = 3 then Except.ok [("a", some "la"), ("b", some "lb")]
  else if n = 4 then Except.ok [("a", some "la")]
  else if n = 5 then Except.ok [("c", some "lc")]
  else Except.ok []

/-! ### Lemmas about the dict model -/

theorem pyInsert_keys [DecidableEq α] (d : List (α × β)) (k : α) (v : β) :
    (pyInsert d k v).map Prod.fst =
      if k ∈ d.map Prod.fst then d.map Prod.fst else d.map Prod.fst ++ [k] := by
  induction d with
  | nil => simp [pyInsert]
  | cons p rest ih =>
    obtain ⟨k', v'⟩ := p
    by_cases hk : k' = k
    · subst hk
      simp [pyInsert]
    · simp only [pyInsert, if_neg hk, List.map_cons, List.mem_cons]
      rw [ih]
      by_cases hmem : k ∈ rest.map Prod.fst
      · simp [hmem, Ne.symm hk]
      · simp [hmem, Ne.symm hk]

theorem pyInsert_of_not_mem_keys [DecidableEq α] {d : List (α × β)} {k : α} (v : β)
    (h : k ∉ d.map Prod.fst) : pyInsert d k v = d ++ [(k, v)] := by
  induction d with
  | nil => simp [pyInsert]
  | cons p rest ih =>
    obtain ⟨a, b⟩ := p
    simp only [List.map_cons, List.mem_cons] at h
    push_neg at h
    simp only [pyInsert, if_neg (Ne.symm h.1), List.cons_append]
    rw [ih h.2]

theorem pyInsert_keys_nodup [DecidableEq α] {d : List (α × β)} (k : α) (v : β)
    (h : (d.map Prod.fst).Nodup) : ((pyInsert d k v).map Prod.fst).Nodup := by
  rw [pyInsert_keys]
  by_cases hmem : k ∈ d.map Prod.fst
  · simpa [hmem] using h
  · rw [if_neg hmem, List.nodup_append]
    refine ⟨h, by simp, ?_⟩
    intro a ha hb
    simp only [List.mem_singleton] at hb
    exact hmem (hb ▸ ha)

theorem pyOfPairs_concat [DecidableEq α] (ps : List (α × β)) (p : α × β) :
    pyOfPairs (ps ++ [p]) = pyInsert (pyOfPairs ps) p.1 p.2 := by
  simp [pyOfPairs, List.foldl_append]

theorem pyOfPairs_keys_nodup [DecidableEq α] (ps : List (α × β)) :
    ((pyOfPairs ps).map Prod.fst).Nodup := by
  induction ps using List.reverseRecOn with
  | nil => simp [pyOfPairs]
  | append_singleton ps p ih =>
    rw [pyOfPairs_concat]
    exact pyInsert_keys_nodup p.1 p.2 ih

theorem pyOfPairs_eq_self [DecidableEq α] {ps : List (α × β)}
    (h : (ps.map Prod.fst).Nodup) : pyOfPairs ps = ps := by
  induction ps using List.reverseRecOn with
  | nil => simp [pyOfPairs]
  | append_singleton ps p ih =>
    rw [List.map_append, List.nodup_append] at h
    obtain ⟨h1, _, hdisj⟩ := h
    rw [pyOfPairs_concat, ih h1, pyInsert_of_not_mem_keys]
    intro hmem
    exact hdisj hmem (by simp)

theorem lookupPy_pyInsert [DecidableEq α] (d : List (α × β)) (k k' : α) (v : β) :
    lookupPy (pyInsert d k v) k' = if k = k' then some v else lookupPy d k' := by
  induction d with
  | nil => simp [pyInsert, lookupPy]
  | cons p rest ih =>
    obtain ⟨a, b⟩ := p
    by_cases hak : a = k
    · subst hak
      by_cases hkk : a = k' <;> simp [pyInsert, lookupPy, hkk]
    · by_cases hak' : a = k'
      · subst hak'
        simp [pyInsert, if_neg hak, lookupPy, Ne.symm hak]
      · simp [pyInsert, if_neg hak, lookupPy, hak', ih]

theorem lastValue_concat [DecidableEq α] (ps : List (α × β)) (p : α × β) (k : α) :
    lastValue (ps ++ [p]) k =
      if p.1 = k then some p.2 else lastValue ps k := by
  unfold lastValue
  rw [List.filterMap_append]
  by_cases hp : p.1 = k
  · simp [hp, List.getLast?_append]
  · simp [hp]

/-- Last writer wins: looking a key up in the dict built from a pair
sequence returns the value of that key's last occurrence in the
sequence. -/
theorem lookupPy_pyOfPairs [DecidableEq α] (ps : List (α × β)) (k : α) :
    lookupPy (pyOfPairs ps) k = lastValue ps k := by
  induction ps using List.reverseRecOn with
  | nil => simp [pyOfPairs, lookupPy, lastValue]
  | append_singleton ps p ih =>
    rw [pyOfPairs_concat, lookupPy_pyInsert, lastValue_concat, ih]

theorem pyInsert_values_subset [DecidableEq α] (d : List (α × β)) (k : α) (v : β) :
    ∀ x ∈ (pyInsert d k v).map Prod.snd, x ∈ d.map Prod.snd ∨ x = v := by
  induction d with
  | nil => simp [pyInsert]
  | cons p rest ih =>
    obtain ⟨a, b⟩ := p
    intro x hx
    simp only [pyInsert] at hx
    split at hx
    · simp only [List.map_cons, List.mem_cons] at hx
      rcases hx with hx | hx
      · right; exact hx
      · left
        simp only [List.map_cons, List.mem_cons]
        right; exact hx
    · simp only [List.map_cons, List.mem_cons] at hx
      rcases hx with hx | hx
      · left
        simp only [List.map_cons, List.mem_cons]
        left; exact hx
      · rcases ih x hx with h | h
        · left
          simp only [List.map_cons, List.mem_cons]
          right; exact h
        · right; exact h

theorem pyInsert_values_nodup [DecidableEq α] {d : List (α × β)} (k : α) {v : β}
    (hd : (d.map Prod.snd).Nodup) (hv : v ∉ d.map Prod.snd) :
    ((pyInsert d k v).map Prod.snd).Nodup := by
  induction d with
  | nil => simp [pyInsert]
  | cons p rest ih =>
    obtain ⟨a, b⟩ := p
    simp only [List.map_cons, List.nodup_cons] at hd
    simp only [List.map_cons, List.mem_cons] at hv
    push_neg at hv
    simp only [pyInsert]
    split
    · simp only [List.map_cons, List.nodup_cons]
      exact ⟨hv.2, hd.2⟩
    · simp only [List.map_cons, List.nodup_cons]
      refine ⟨?_, ih hd.2 hv.2⟩
      intro hb
      rcases pyInsert_values_subset rest k v b hb with h | h
      · exact hd.1 h
      · exact hv.1 h.symm

theorem pyOfPairs_values_subset [DecidableEq α] (ps : List (α × β)) :
    ∀ x ∈ (pyOfPairs ps).map Prod.snd, x ∈ ps.map Prod.snd := by
  induction ps using List.reverseRecOn with
  | nil => simp [pyOfPairs]
  | append_singleton ps p ih =>
    intro x hx
    rw [pyOfPairs_concat] at hx
    rcases pyInsert_values_subset (pyOfPairs ps) p.1 p.2 x hx with h | h
    · simp only [List.map_append, List.mem_append]
      exact Or.inl (ih x h)
    · simp [h]

theorem pyOfPairs_values_nodup [DecidableEq α] {ps : List (α × β)}
    (h : (ps.map Prod.snd).Nodup) : ((pyOfPairs ps).map Prod.snd).Nodup := by
  induction ps using List.reverseRecOn with
  | nil => simp [pyOfPairs]
  | append_singleton ps p ih =>
    rw [List.map_append, List.nodup_append] at h
    obtain ⟨h1, _, hdisj⟩ := h
    rw [pyOfPairs_concat]
    refine pyInsert_values_nodup p.1 (ih h1) ?_
    intro hmem
    exact hdisj (pyOfPairs_values_subset ps p.2 hmem) (by simp)

theorem remove_duplicates_keys_nodup (d : List (String × String)) :
    ((remove_duplicates d).map Prod.fst).Nodup :=
  pyOfPairs_keys_nodup _

theorem remove_duplicates_values_nodup (d : List (String × String)) :
    ((remove_duplicates d).map Prod.snd).Nodup := by
  refine pyOfPairs_values_nodup ?_
  have : ((pyOfPairs (d.map fun p => (p.2, p.1))).map fun p : String × String => (p.2, p.1)).map
      Prod.snd = (pyOfPairs (d.map fun p => (p.2, p.1))).map Prod.fst := by
    simp [List.map_map, Function.comp]
  rw [this]
  exact pyOfPairs_keys_nodup _

/-- Two elements of a list whose second components are equal are the
same element when the list's second components are pairwise distinct. -/
theorem eq_of_mem_of_snd_nodup {l : List (α × β)} (h : (l.map Prod.snd).Nodup)
    {p q : α × β} (hp : p ∈ l) (hq : q ∈ l) (hpq : p.2 = q.2) : p = q := by
  induction l with
  | nil => cases hp
  | cons a t ih =>
    simp only [List.map_cons, List.nodup_cons] at h
    rcases List.mem_cons.mp hp with hp1 | hp1 <;>
      rcases List.mem_cons.mp hq with hq1 | hq1
    · rw [hp1, hq1]
    · exfalso
      apply h.1
      have hmem : q.2 ∈ List.map Prod.snd t := List.mem_map_of_mem Prod.snd hq1
      rw [hp1] at hpq
      rw [hpq]
      exact hmem
    · exfalso
      apply h.1
      have hmem : p.2 ∈ List.map Prod.snd t := List.mem_map_of_mem Prod.snd hp1
      rw [hq1] at hpq
      rw [← hpq]
      exact hmem
    · exact ih h.2 hp1 hq1

/-- C7: applying `remove_duplicates` twice yields the same result as
applying it once, for every title→link association — after one pass both
the keys and the values are pairwise distinct, so each of the two
inversions of the second pass is a plain bijective transposition. -/
theorem C7_remove_duplicates_idempotent (d : List (String × String)) :
    remove_duplicates (remove_duplicates d) = remove_duplicates d := by
  have hkeys := remove_duplicates_keys_nodup d
  have hvals := remove_duplicates_values_nodup d
  generalize hres : remove_duplicates d = res at hkeys hvals ⊢
  have h1 : pyOfPairs (res.map fun p => (p.2, p.1)) = res.map fun p => (p.2, p.1) := by
    apply pyOfPairs_eq_self
    have hm : ((res.map fun p : String × String => (p.2, p.1)).map Prod.fst) =
        res.map Prod.snd := by
      simp [List.map_map, Function.comp]
    rw [hm]
    exact hvals
  simp only [remove_duplicates]
  rw [h1]
  have h2 : ((res.map fun p : String × String => (p.2, p.1)).map
      fun p : String × String => (p.2, p.1)) = res := by
    rw [List.map_map]
    have hcomp : ((fun p : String × String => (p.2, p.1)) ∘
        fun p : String × String => (p.2, p.1)) = id := by
      funext p
      rfl
    rw [hcomp, List.map_id]
  rw [h2]
  exact pyOfPairs_eq_self hkeys

/-! ### Lemmas about the pagination loop -/

/-- A page whose fetch raises is indistinguishable, for the rest of the
crawl, from a page that parses to zero listing spans: the `except` branch
and the `if not span_tags` branch both fall through to the next page with
the accumulators unchanged. -/
theorem pageLoop_error_eq_empty (site : Site) (N : Nat) (h : site N = Except.error ()) :
    ∀ (pages : List Nat) (st : List String × List String),
      pageLoop site pages st =
        pageLoop (fun n => if n = N then Except.ok [] else site n) pages st := by
  intro pages
  induction pages with
  | nil => intro st; rfl
  | cons num rest ih =>
    intro st
    by_cases hn : num = N
    · subst hn
      simp only [pageLoop, h, if_pos rfl]
      show pageLoop site rest st = pageLoop _ rest (spanLoop [] st.1 st.2)
      exact ih st
    · simp only [pageLoop, if_neg hn]
      cases hsite : site num with
      | error e => exact ih st
      | ok spans => exact ih (spanLoop spans st.1 st.2)

/-! ### Lemmas about `find_element_after_sequence` -/

/-- When no index of the scanned range matches the sequence, the loop
falls through and returns `None`. -/
theorem feasGo_ok_none (values seq : List String) :
    ∀ (k i : Nat), (∀ j, i ≤ j → j < i + k → (values.drop j).take seq.length ≠ seq) →
      feasGo values seq i k = Except.ok none := by
  intro k
  induction k with
  | zero => intro i _; rfl
  | succ k ih =>
    intro i h
    have hni : (values.drop i).take seq.length ≠ seq := h i le_rfl (by omega)
    simp only [feasGo, if_neg hni]
    exact ih (i + 1) (fun j hj1 hj2 => h j (by omega) (by omega))

/-- The loop's outcome is decided by the first matching index that has an
element after it: `int` of that element on success, the uncaught
`ValueError` on a parse failure. -/
theorem feasGo_first_match (values seq : List String) :
    ∀ (k i i₀ : Nat), i ≤ i₀ → i₀ < i + k →
      (∀ j, i ≤ j → j < i₀ → (values.drop j).take seq.length ≠ seq) →
      (values.drop i₀).take seq.length = seq →
      i₀ + seq.length < values.length →
      feasGo values seq i k =
        (match pyInt (values.getD (i₀ + seq.length) "") with
         | some n => Except.ok (some n)
         | none => Except.error ()) := by
  intro k
  induction k with
  | zero =>
    intro i i₀ h1 h2 _ _ _
    exact absurd h2 (by omega)
  | succ k ih =>
    intro i i₀ hle hlt hbefore hmatch hfollow
    rcases Nat.eq_or_lt_of_le hle with heq | hlt2
    · subst heq
      simp only [feasGo, if_pos hmatch, if_pos hfollow]
    · have hni : (values.drop i).take seq.length ≠ seq := hbefore i le_rfl hlt2
      simp only [feasGo, if_neg hni]
      exact ih (i + 1) i₀ hlt2 (by omega)
        (fun j hj1 hj2 => hbefore j (by omega) hj2) hmatch hfollow

/-! ## Claim theorems -/

/-- C1: the spec says a title element with no enclosing link-bearing
ancestor is dropped silently, each remaining title paired with its own
link.  In the code (src/utils/utils.py:260-264) the title is appended
before the link check, so a link-less title stays in `title` while
nothing joins `links`: on a page with a link-less `T1` followed by `T2`
carrying link `L2`, `zip` pairs `T1` with `L2` and drops `T2` — not the
claimed `{T2: L2}`. -/
theorem C1_linkless_title_shifts_pairing :
    imovirtual siteShift 1 1 = [("T1", "L2")] ∧
      imovirtual siteShift 1 1 ≠ [("T2", "L2")] := by decide

/-- C2: the spec says the crawl stops at the first page that yields zero
stubs.  The `if not span_tags:` branch only logs "Stopping." and falls
through (`pass`, src/utils/utils.py:256-258), so the loop continues:
with pages 1-2 nonempty, page 3 empty and page 4 nonempty, page 4's stub
is in the result instead of the claimed pages-1-2-only collection. -/
theorem C2_empty_page_does_not_stop :
    imovirtual siteEmptyPage 1 4 = [("t1", "l1"), ("t2", "l2"), ("t4", "l4")] ∧
      imovirtual siteEmptyPage 1 4 ≠ [("t1", "l1"), ("t2", "l2")] := by decide

/-- C3 counterexample: with page 2's fetch raising and page 3 nonempty,
page 3's stub is still collected, so the run does not return only the
stubs collected before the failing page — the `except` branch `pass`es
and the loop continues (src/utils/utils.py:268-270). -/
theorem C3_fetch_failure_not_terminal :
    imovirtual siteFetchFail 1 3 = [("t1", "l1"), ("t3", "l3")] ∧
      imovirtual siteFetchFail 1 3 ≠ [("t1", "l1")] := by decide

/-- C3 amended: a fetch failure on page N is caught and logged, page N
contributes no stubs, and the crawl continues with the pages after N —
the whole run is observationally the run on the site in which page N is
merely empty. -/
theorem C3_fetch_failure_skips_page (site : Site) (N start_page end_page : Nat)
    (h : site N = Except.error ()) :
    imovirtual site start_page end_page =
      imovirtual (fun n => if n = N then Except.ok [] else site n) start_page end_page := by
  simp only [imovirtual]
  rw [pageLoop_error_eq_empty site N h]

/-- C3 witness: the amended statement at the concrete failing site. -/
theorem C3_fetch_failure_skips_page_witness :
    imovirtual siteFetchFail 1 3 =
      imovirtual (fun n => if n = 2 then Except.ok [] else siteFetchFail n) 1 3 :=
  C3_fetch_failure_skips_page siteFetchFail 2 1 3 rfl

/-- C4: fed through dict construction and `remove_duplicates`, the stub
sequence [("A","x"), ("B","x"), ("A","y")] yields exactly
{"A": "y", "B": "x"}; and in general the first inversion keeps, for each
link, the title of its last writer, while the second keeps, for each
title, the link of its last writer among the inverted entries. -/
theorem C4_dedup_double_inversion :
    remove_duplicates (pyOfPairs [("A", "x"), ("B", "x"), ("A", "y")]) =
        [("A", "y"), ("B", "x")] ∧
      (∀ (data : List (String × String)) (link : String),
        lookupPy (pyOfPairs (data.map fun p => (p.2, p.1))) link =
          lastValue (data.map fun p => (p.2, p.1)) link) ∧
      (∀ (data : List (String × String)) (ttl : String),
        lookupPy (remove_duplicates data) ttl =
          lastValue ((pyOfPairs (data.map fun p => (p.2, p.1))).map
            fun p => (p.2, p.1)) ttl) := by
  refine ⟨by decide, ?_, ?_⟩
  · intro data link
    exact lookupPy_pyOfPairs _ _
  · intro data ttl
    exact lookupPy_pyOfPairs _ _

/-- C5: the spec says the engine stops after a page whose link set is a
non-empty subset of the previous page's.  No repeat check exists in the
code (repeats are mentioned only in the comment beside the no-op `pass`,
src/utils/utils.py:258): with page 4 repeating a part of page 3 and page
5 holding a fresh stub, the run through page 5 still collects page 5's
stub, so it differs from the run capped at page 4. -/
theorem C5_no_repeat_page_stop :
    imovirtual siteRepeat 1 5 =
        [("t1", "l1"), ("t2", "l2"), ("a", "la"), ("b", "lb"), ("c", "lc")] ∧
      imovirtual siteRepeat 1 4 = [("t1", "l1"), ("t2", "l2"), ("a", "la"), ("b", "lb")] ∧
      imovirtual siteRepeat 1 5 ≠ imovirtual siteRepeat 1 4 := by decide

/-- C6 counterexample: for `full_address = "OnlyOneToken"` the derived
region (the `state` column) is not absent — pandas `.str[-1]` on the
one-element split returns the whole token. -/
theorem C6_one_token_region_not_absent :
    derive_state "OnlyOneToken" = some "OnlyOneToken" ∧
      derive_state "OnlyOneToken" ≠ none := by decide

/-- C6 amended: splitting on commas and trimming, "Rua X, Lisboa,
Lisboa" yields city "Lisboa" and region "Lisboa"; for the single-segment
address "OnlyOneToken" the city is absent but the region is the whole
(trimmed) address, and no fault is raised — both derivations are total
and resolve out-of-range segment indices to absence. -/
theorem C6_address_split_amended :
    derive_city "Rua X, Lisboa, Lisboa" = some "Lisboa" ∧
      derive_state "Rua X, Lisboa, Lisboa" = some "Lisboa" ∧
      derive_city "OnlyOneToken" = none ∧
      derive_state "OnlyOneToken" = some "OnlyOneToken" := by decide

/-- C8: the price cleanup strips the trailing currency/unit suffix:
"350 000 €" becomes "350 000" and "2 500 €/m²" becomes "2 500". -/
theorem C8_price_cleanup :
    clean_prices "350 000 €" = "350 000" ∧
      clean_prices_m2 "2 500 €/m²" = "2 500" := by decide

/-- C9: the output of `remove_duplicates` has pairwise-distinct titles
and pairwise-distinct links, hence is injective as a title→link mapping:
entries agreeing on the link agree on the title. -/
theorem C9_dedup_output_injective (d : List (String × String)) :
    ((remove_duplicates d).map Prod.fst).Nodup ∧
      ((remove_duplicates d).map Prod.snd).Nodup ∧
      ∀ p ∈ remove_duplicates d, ∀ q ∈ remove_duplicates d, p.2 = q.2 → p.1 = q.1 := by
  refine ⟨remove_duplicates_keys_nodup d, remove_duplicates_values_nodup d, ?_⟩
  intro p hp q hq hpq
  exact congrArg Prod.fst (eq_of_mem_of_snd_nodup (remove_duplicates_values_nodup d) hp hq hpq)

/-- C9 witness: the injectivity arm at a concrete input on which the
dedup actually collapses two stubs. -/
theorem C9_dedup_output_injective_witness :
    (("B", "x") : String × String) ∈ remove_duplicates [("A", "x"), ("B", "x")] ∧
      (("B", "x") : String × String).1 = (("B", "x") : String × String).1 :=
  ⟨by decide, (C9_dedup_output_injective [("A", "x"), ("B", "x")]).2.2
    ("B", "x") (by decide) ("B", "x") (by decide) rfl⟩

/-- C10: `find_element_after_sequence` returns `None` when no occurrence
of ["1","2","3"] inside the scanned range has a token after it — so
`get_page_number` resolves an absent pagination widget to `None`, not
zero — but the uncaught `ValueError` (`Except.error`) results when the
token after the first such occurrence is not a decimal integer
literal. -/
theorem C10_find_element_after_sequence (values : List String) :
    ((∀ i, i + 3 < values.length → (values.drop i).take 3 ≠ ["1", "2", "3"]) →
        get_page_number_core values = Except.ok none) ∧
      (∀ i, (values.drop i).take 3 = ["1", "2", "3"] → i + 3 < values.length →
        (∀ j, j < i → (values.drop j).take 3 ≠ ["1", "2", "3"]) →
        pyInt (values.getD (i + 3) "") = none →
        get_page_number_core values = Except.error ()) := by
  constructor
  · intro h
    exact feasGo_ok_none values ["1", "2", "3"] (values.length - 3) 0
      (fun j hj1 hj2 => h j (by omega))
  · intro i hmatch hfollow hbefore hpy
    have h2 := feasGo_first_match values ["1", "2", "3"] (values.length - 3) 0 i
      (Nat.zero_le i) (by omega) (fun j _ hj2 => hbefore j hj2) hmatch hfollow
    have hpy2 : pyInt (values.getD (i + (["1", "2", "3"] : List String).length) "") = none := hpy
    rw [hpy2] at h2
    exact h2

/-- C10 witness: the theorem's two arms at concrete token lists — a
widget without the "1","2","3" run resolves to `None`, and a non-numeric
token after the run raises. -/
theorem C10_find_element_after_sequence_witness :
    get_page_number_core ["a", "b", "c", "d"] = Except.ok none ∧
      get_page_number_core ["1", "2", "3", "x"] = Except.error () := by
  constructor
  · apply (C10_find_element_after_sequence ["a", "b", "c", "d"]).1
    intro i hi
    have hlen : (["a", "b", "c", "d"] : List String).length = 4 := rfl
    rw [hlen] at hi
    have hz : i = 0 := by omega
    subst hz
    decide
  · exact (C10_find_element_after_sequence ["1", "2", "3", "x"]).2 0 (by decide) (by decide)
      (fun j hj => absurd hj (Nat.not_lt_zero j)) (by decide)

end HouseBuy
